import Mathlib

/-!
Shallow embedding of `src/samples/python/llama_weight_convert.py`
(function `reformat_quantized`), the GPTQ-quantized LLaMA weight
converter of FyuseNet, together with proofs about the name-map
generator and the archive-encoding loop it contains.

Modelling conventions:
* A PyTorch tensor is modelled by its element type and its flat list of
  element values; element values themselves are never inspected by the
  program (it only re-serializes them), so they are carried as opaque
  integers.  The byte length of a serialized tensor is
  `element count * element size`, matching `tensor.numpy().tobytes()`.
* `tensor.to(torch.float16)` changes the element type tag and keeps the
  element count; this is all the program observes of the conversion.
* The parameter dictionary (`params`) is an association list from string
  keys to tensors; `param in params.keys()` corresponds to
  `List.lookup` succeeding.
* The zip archive is modelled as the ordered list of
  `(entry name, tensor written)` pairs produced by `writestr` calls.
  The Python `with zipfile.ZipFile(...)` statement calls
  `ZipFile.close()` on every exit path, including the early
  `return False` paths, which writes the end-of-central-directory
  record; hence the run record carries `finalized := true`
  unconditionally.
* Printing followed by `return False` is modelled as an `Option String`
  holding exactly the printed diagnostic; `none` is the successful run
  (the Python function falls off the end, returning `None`).
-/

/-- Element types a tensor can carry.  `float32`, `float16` and `int32`
are the types the program recognizes; `float64` and `int64` stand for
the remaining PyTorch element types, which the program rejects. -/
inductive DType where
  | float32
  | float16
  | int32
  | float64
  | int64
deriving DecidableEq, Repr

/-- Byte width of one element of the given type. -/
def DType.byteSize : DType → Nat
  | .float32 => 4
  | .float16 => 2
  | .int32 => 4
  | .float64 => 8
  | .int64 => 8

/-- A tensor: an element-type tag plus the flat list of element values
(opaque to the program). -/
structure Tensor where
  dtype : DType
  data : List Int
deriving DecidableEq, Repr

/-- Embeds `tensor.to(torch.float16)` (and `.to` generally): the
element-type tag changes, the element count is preserved.  The program
never looks at the converted values, only re-serializes them. -/
def Tensor.to (t : Tensor) (d : DType) : Tensor :=
  { dtype := d, data := t.data }

/-- Byte length of `tensor.numpy().tobytes()`: element count times
element byte width. -/
def Tensor.byteLength (t : Tensor) : Nat :=
  t.data.length * t.dtype.byteSize

/-- One row of the `paramlist` built at the top of
`reformat_quantized`: the Python tuple
`(param, oparam, castable, optional)`. -/
structure Entry where
  key : String
  dest : String
  castable : Bool
  optional : Bool
deriving DecidableEq, Repr

/-- Digit character for a value below ten, as produced by decimal
formatting. -/
def digitChar (n : Nat) : Char := Char.ofNat (48 + n)

/-- Fuel-driven decimal digit expansion; with `fuel ≥ n` it computes the
standard base-10 digit string of `n` (the fuel only makes the recursion
structural). -/
def natDigitsAux : Nat → Nat → List Char
  | 0, n => [digitChar n]
  | fuel + 1, n =>
    if n < 10 then [digitChar n]
    else natDigitsAux fuel (n / 10) ++ [digitChar (n % 10)]

/-- Decimal digit string of `n`. -/
def natDigits (n : Nat) : List Char := natDigitsAux n n

/-- Embeds Python `'%d' % n` for the non-negative `n` used here: the
decimal representation of `n`. -/
def fmtNat (n : Nat) : String := ⟨natDigits n⟩

/-- The twelve attention rows appended for layer `i`
(`q/k/v/o_proj` each with `qweight`, `scales`, `qzeros`). -/
def layerAttn (i : Nat) : List Entry :=
  [⟨"model.layers." ++ fmtNat i ++ ".self_attn.q_proj.qweight",
      "dec" ++ fmtNat i ++ "att.query.weights", false, false⟩,
   ⟨"model.layers." ++ fmtNat i ++ ".self_attn.q_proj.scales",
      "dec" ++ fmtNat i ++ "att.query.scales", false, false⟩,
   ⟨"model.layers." ++ fmtNat i ++ ".self_attn.q_proj.qzeros",
      "dec" ++ fmtNat i ++ "att.query.zeros", false, false⟩,
   ⟨"model.layers." ++ fmtNat i ++ ".self_attn.k_proj.qweight",
      "dec" ++ fmtNat i ++ "att.key.weights", false, false⟩,
   ⟨"model.layers." ++ fmtNat i ++ ".self_attn.k_proj.scales",
      "dec" ++ fmtNat i ++ "att.key.scales", false, false⟩,
   ⟨"model.layers." ++ fmtNat i ++ ".self_attn.k_proj.qzeros",
      "dec" ++ fmtNat i ++ "att.key.zeros", false, false⟩,
   ⟨"model.layers." ++ fmtNat i ++ ".self_attn.v_proj.qweight",
      "dec" ++ fmtNat i ++ "att.value.weights", false, false⟩,
   ⟨"model.layers." ++ fmtNat i ++ ".self_attn.v_proj.scales",
      "dec" ++ fmtNat i ++ "att.value.scales", false, false⟩,
   ⟨"model.layers." ++ fmtNat i ++ ".self_attn.v_proj.qzeros",
      "dec" ++ fmtNat i ++ "att.value.zeros", false, false⟩,
   ⟨"model.layers." ++ fmtNat i ++ ".self_attn.o_proj.qweight",
      "dec" ++ fmtNat i ++ "att.out.weights", false, false⟩,
   ⟨"model.layers." ++ fmtNat i ++ ".self_attn.o_proj.scales",
      "dec" ++ fmtNat i ++ "att.out.scales", false, false⟩,
   ⟨"model.layers." ++ fmtNat i ++ ".self_attn.o_proj.qzeros",
      "dec" ++ fmtNat i ++ "att.out.zeros", false, false⟩]

/-- The twelve MLP rows appended for layer `i`.  Note that the source
marks `down_proj.qweight` with `optional = True` (fourth tuple
component), unlike the other projection weights. -/
def layerMlp (i : Nat) : List Entry :=
  [⟨"model.layers." ++ fmtNat i ++ ".mlp.gate_proj.qweight",
      "dec" ++ fmtNat i ++ "gate.weights", false, false⟩,
   ⟨"model.layers." ++ fmtNat i ++ ".mlp.gate_proj.bias",
      "dec" ++ fmtNat i ++ "gate.bias", false, true⟩,
   ⟨"model.layers." ++ fmtNat i ++ ".mlp.gate_proj.scales",
      "dec" ++ fmtNat i ++ "gate.scales", false, false⟩,
   ⟨"model.layers." ++ fmtNat i ++ ".mlp.gate_proj.qzeros",
      "dec" ++ fmtNat i ++ "gate.zeros", false, false⟩,
   ⟨"model.layers." ++ fmtNat i ++ ".mlp.up_proj.qweight",
      "dec" ++ fmtNat i ++ "up.weights", false, false⟩,
   ⟨"model.layers." ++ fmtNat i ++ ".mlp.up_proj.bias",
      "dec" ++ fmtNat i ++ "up.bias", false, true⟩,
   ⟨"model.layers." ++ fmtNat i ++ ".mlp.up_proj.scales",
      "dec" ++ fmtNat i ++ "up.scales", false, false⟩,
   ⟨"model.layers." ++ fmtNat i ++ ".mlp.up_proj.qzeros",
      "dec" ++ fmtNat i ++ "up.zeros", false, false⟩,
   ⟨"model.layers." ++ fmtNat i ++ ".mlp.down_proj.qweight",
      "dec" ++ fmtNat i ++ "down.weights", false, true⟩,
   ⟨"model.layers." ++ fmtNat i ++ ".mlp.down_proj.bias",
      "dec" ++ fmtNat i ++ "down.bias", false, true⟩,
   ⟨"model.layers." ++ fmtNat i ++ ".mlp.down_proj.scales",
      "dec" ++ fmtNat i ++ "down.scales", false, false⟩,
   ⟨"model.layers." ++ fmtNat i ++ ".mlp.down_proj.qzeros",
      "dec" ++ fmtNat i ++ "down.zeros", false, false⟩]

/-- The two layer-normalization rows appended for layer `i`. -/
def layerNorms (i : Nat) : List Entry :=
  [⟨"model.layers." ++ fmtNat i ++ ".input_layernorm.weight",
      "dec" ++ fmtNat i ++ "ln0.weights", true, false⟩,
   ⟨"model.layers." ++ fmtNat i ++ ".post_attention_layernorm.weight",
      "dec" ++ fmtNat i ++ "ln1.weights", true, false⟩]

/-- All twenty-six rows appended by one iteration of the
`for layer in range(num_layers)` loop, in source order. -/
def layerEntries (i : Nat) : List Entry :=
  layerAttn i ++ layerMlp i ++ layerNorms i

/-- The complete `paramlist` built by `reformat_quantized` for
`num_layers = n`: the embedding row, the per-layer rows for layers
`0, …, n-1`, then the final-norm and lm-head rows.  This is the
NameMapGenerator `generate` of the specification. -/
def generate (n : Nat) : List Entry :=
  ⟨"model.embed_tokens.weight", "embedding.embed", true, false⟩ ::
    ((List.range n).flatMap layerEntries ++
      [⟨"model.norm.weight", "modelnorm.weights", true, false⟩,
       ⟨"lm_head.weight", "tokenscoring.embed", true, false⟩])

/-- Type-classification branch of the loop body: the
`if tensor.dtype == torch.float32 ... elif ... elif ... else` chain,
returning the namespace string, or `none` for the
`print('Unknown data type'); return False` arm. -/
def pfxFor : DType → Option String
  | .float32 => some "float32/"
  | .float16 => some "float16/"
  | .int32 => some "int32/"
  | _ => none

/-- The `for param, oparam, castable, optional in paramlist` loop of
`reformat_quantized`.  Returns the diagnostic printed before an early
`return False` (or `none` on success) together with the list of
`(archive entry name, tensor)` pairs written by `outfile.writestr`. -/
def runEntries (params : List (String × Tensor)) (downcast : Bool) :
    List Entry → Option String × List (String × Tensor)
  | [] => (none, [])
  | e :: rest =>
    match params.lookup e.key with
    | none =>
      if e.optional then runEntries params downcast rest
      else (some ("Parameters for " ++ e.key ++ " not found, bailing out"), [])
    | some t0 =>
      let t := if downcast && e.castable then t0.to DType.float16 else t0
      match pfxFor t.dtype with
      | none => (some "Unknown data type", [])
      | some px =>
        let r := runEntries params downcast rest
        (r.1, (px ++ e.dest, t) :: r.2)

/-- Decimal value of a digit string; left inverse of `natDigits`. -/
def natVal (l : List Char) : Nat :=
  l.foldl (fun a c => a * 10 + (c.toNat - 48)) 0

/-- The twenty-six per-layer destination-path suffixes, in the order the
rows are appended; every per-layer destination is
`"dec" ++ fmtNat i ++ suffix`. -/
def layerSuffixes : List String :=
  ["att.query.weights", "att.query.scales", "att.query.zeros",
   "att.key.weights", "att.key.scales", "att.key.zeros",
   "att.value.weights", "att.value.scales", "att.value.zeros",
   "att.out.weights", "att.out.scales", "att.out.zeros",
   "gate.weights", "gate.bias", "gate.scales", "gate.zeros",
   "up.weights", "up.bias", "up.scales", "up.zeros",
   "down.weights", "down.bias", "down.scales", "down.zeros",
   "ln0.weights", "ln1.weights"]

/-- Checks whether the second character list starts with the first. -/
def segStarts : List Char → List Char → Bool
  | [], _ => true
  | _ :: _, [] => false
  | c :: p, d :: s => c == d && segStarts p s

/-- Checks whether the first character list occurs contiguously inside
the second; used to formalize "the diagnostic names the path/type". -/
def segOccurs (pat : List Char) : List Char → Bool
  | [] => pat.isEmpty
  | d :: s => segStarts pat (d :: s) || segOccurs pat s

/-- States that the loop body does not abort on entry `e`: either the
key is absent and the entry is optional, or the key resolves to a
tensor whose (possibly downcast) element type is recognized. -/
def entryOk (params : List (String × Tensor)) (dc : Bool) (e : Entry) : Bool :=
  match params.lookup e.key with
  | none => e.optional
  | some t => (pfxFor ((if dc && e.castable then t.to DType.float16 else t).dtype)).isSome

/-- Outcome of one call of `reformat_quantized`. -/
structure Run where
  error : Option String
  written : List (String × Tensor)
  finalized : Bool
deriving DecidableEq, Repr

/-- Embeds `reformat_quantized(params, num_layers, output_file,
downcast)`: builds the name map, runs the entry loop inside the
`with zipfile.ZipFile(...)` block, and records that the `with`
statement closes (finalizes) the zip archive on every exit path,
including the early `return False` paths. -/
def reformat_quantized (params : List (String × Tensor)) (num_layers : Nat)
    (downcast : Bool) : Run :=
  let r := runEntries params downcast (generate num_layers)
  { error := r.1, written := r.2, finalized := true }

/-! Digit-string lemmas: `natDigits` produces digit characters only,
and is injective because `natVal` recovers the number. -/

lemma toNat_digitChar {d : Nat} (h : d < 10) : (digitChar d).toNat = 48 + d := by
  interval_cases d <;> decide

lemma natVal_append_digit (a : List Char) (c : Char) :
    natVal (a ++ [c]) = natVal a * 10 + (c.toNat - 48) := by
  simp [natVal, List.foldl_append]

lemma natVal_natDigitsAux :
    ∀ fuel n, n ≤ fuel → natVal (natDigitsAux fuel n) = n := by
  intro fuel
  induction fuel with
  | zero =>
    intro n hn
    have hn0 : n = 0 := Nat.le_zero.mp hn
    subst hn0
    decide
  | succ fuel ih =>
    intro n hn
    rw [natDigitsAux]
    by_cases h10 : n < 10
    · simp only [h10, if_true]
      simp [natVal, toNat_digitChar h10]
    · simp only [h10, if_false]
      have hdiv : n / 10 ≤ fuel := by
        have : n / 10 < n := Nat.div_lt_self (by omega) (by omega)
        omega
      rw [natVal_append_digit, ih _ hdiv, toNat_digitChar (Nat.mod_lt n (by omega))]
      omega

lemma natVal_natDigits (n : Nat) : natVal (natDigits n) = n :=
  natVal_natDigitsAux n n (Nat.le_refl n)

lemma natDigits_inj {a b : Nat} (h : natDigits a = natDigits b) : a = b := by
  have := congrArg natVal h
  rwa [natVal_natDigits, natVal_natDigits] at this

lemma mem_natDigitsAux_digit :
    ∀ fuel n, n ≤ fuel → ∀ c ∈ natDigitsAux fuel n, 48 ≤ c.toNat ∧ c.toNat ≤ 57 := by
  intro fuel
  induction fuel with
  | zero =>
    intro n hn c hc
    have hn0 : n = 0 := Nat.le_zero.mp hn
    subst hn0
    simp only [natDigitsAux, List.mem_singleton] at hc
    subst hc
    decide
  | succ fuel ih =>
    intro n hn c hc
    rw [natDigitsAux] at hc
    by_cases h10 : n < 10
    · simp only [h10, if_true, List.mem_singleton] at hc
      subst hc
      rw [toNat_digitChar h10]
      omega
    · simp only [h10, if_false, List.mem_append, List.mem_singleton] at hc
      rcases hc with hc | hc
      · have hdiv : n / 10 ≤ fuel := by
          have : n / 10 < n := Nat.div_lt_self (by omega) (by omega)
          omega
        exact ih _ hdiv c hc
      · subst hc
        rw [toNat_digitChar (Nat.mod_lt n (by omega))]
        omega

lemma mem_natDigits_digit {n : Nat} {c : Char} (hc : c ∈ natDigits n) :
    48 ≤ c.toNat ∧ c.toNat ≤ 57 :=
  mem_natDigitsAux_digit n n (Nat.le_refl n) c hc

/-- If two digit strings followed by non-digit-headed tails concatenate
to the same list, the digit parts and the tails each agree. -/
lemma digits_split :
    ∀ (a : List Char) {b x y : List Char},
      (∀ c ∈ a, 48 ≤ c.toNat ∧ c.toNat ≤ 57) →
      (∀ c ∈ b, 48 ≤ c.toNat ∧ c.toNat ≤ 57) →
      (∀ c, x.head? = some c → 57 < c.toNat) →
      (∀ c, y.head? = some c → 57 < c.toNat) →
      a ++ x = b ++ y → a = b ∧ x = y := by
  intro a
  induction a with
  | nil =>
    intro b x y _ hb hx _ h
    cases b with
    | nil => exact ⟨rfl, h⟩
    | cons d b' =>
      simp only [List.nil_append, List.cons_append] at h
      subst h
      have h1 := hx d rfl
      have h2 := (hb d (List.mem_cons_self d b')).2
      omega
  | cons c a' ih =>
    intro b x y ha hb hx hy h
    cases b with
    | nil =>
      simp only [List.cons_append, List.nil_append] at h
      subst h
      have h1 := hy c rfl
      have h2 := (ha c (List.mem_cons_self c a')).2
      omega
    | cons d b' =>
      simp only [List.cons_append, List.cons.injEq] at h
      obtain ⟨hcd, htail⟩ := h
      obtain ⟨hab, hxy⟩ := ih (fun e he => ha e (List.mem_cons_of_mem c he))
        (fun e he => hb e (List.mem_cons_of_mem d he)) hx hy htail
      exact ⟨by rw [hcd, hab], hxy⟩

/-! Destination-path structure: every per-layer destination is
`"dec" ++ fmtNat i ++ suffix`, the suffixes start with letters, and the
decimal layer index makes paths of different layers distinct. -/

lemma layerPath_data (i : Nat) (s : String) :
    ("dec" ++ fmtNat i ++ s).data = 'd' :: 'e' :: 'c' :: (natDigits i ++ s.data) := by
  have h3 : ("dec" : String).data = ['d', 'e', 'c'] := rfl
  have h4 : (fmtNat i).data = natDigits i := rfl
  simp [String.data_append, h3, h4]

lemma mem_layerSuffixes_head :
    ∀ s ∈ layerSuffixes, ∀ c, s.data.head? = some c → 57 < c.toNat := by decide

lemma layerSuffixes_nodup : layerSuffixes.Nodup := by decide

lemma layerPath_inj {i j : Nat} {s1 s2 : String}
    (hs1 : s1 ∈ layerSuffixes) (hs2 : s2 ∈ layerSuffixes)
    (h : "dec" ++ fmtNat i ++ s1 = "dec" ++ fmtNat j ++ s2) : i = j ∧ s1 = s2 := by
  have hd := congrArg String.data h
  rw [layerPath_data, layerPath_data] at hd
  simp only [List.cons.injEq, true_and] at hd
  obtain ⟨hdl, htl⟩ := digits_split (natDigits i)
    (fun c hc => mem_natDigits_digit hc) (fun c hc => mem_natDigits_digit hc)
    (mem_layerSuffixes_head s1 hs1) (mem_layerSuffixes_head s2 hs2) hd
  exact ⟨natDigits_inj hdl, String.ext htl⟩

lemma layerPath_ne_global {i : Nat} {s g : String} (hg : g.data.head? ≠ some 'd') :
    "dec" ++ fmtNat i ++ s ≠ g := by
  intro h
  apply hg
  rw [← h, layerPath_data]
  rfl

lemma layerEntries_map_dest (i : Nat) :
    (layerEntries i).map Entry.dest = layerSuffixes.map (fun s => "dec" ++ fmtNat i ++ s) := rfl

lemma generate_map_dest (n : Nat) :
    (generate n).map Entry.dest =
      "embedding.embed" ::
        ((List.range n).flatMap
            (fun i => layerSuffixes.map (fun s => "dec" ++ fmtNat i ++ s)) ++
          ["modelnorm.weights", "tokenscoring.embed"]) := by
  simp [generate, List.map_append, List.map_flatMap, layerEntries_map_dest]

/-- All destination paths produced by the name-map generator are
pairwise distinct, for every layer count. -/
lemma generate_dest_nodup (n : Nat) : ((generate n).map Entry.dest).Nodup := by
  rw [generate_map_dest, List.nodup_cons]
  constructor
  · intro hmem
    rw [List.mem_append] at hmem
    rcases hmem with hmem | hmem
    · rw [List.mem_flatMap] at hmem
      obtain ⟨i, _, hmem⟩ := hmem
      rw [List.mem_map] at hmem
      obtain ⟨s, hs, he⟩ := hmem
      exact layerPath_ne_global (by decide) he
    · simp at hmem
  · rw [List.nodup_append]
    refine ⟨?_, by decide, ?_⟩
    · rw [List.nodup_flatMap]
      constructor
      · intro i _
        apply List.Nodup.map_on ?_ layerSuffixes_nodup
        intro s1 h1 s2 h2 h
        exact (layerPath_inj h1 h2 h).2
      · apply List.Pairwise.imp ?_ (List.nodup_range n)
        intro i j hij x hx1 hx2
        rw [List.mem_map] at hx1 hx2
        obtain ⟨s1, hs1, he1⟩ := hx1
        obtain ⟨s2, hs2, he2⟩ := hx2
        exact hij (layerPath_inj hs1 hs2 (he1.trans he2.symm)).1
    · intro x hx1 hx2
      rw [List.mem_flatMap] at hx1
      obtain ⟨i, _, hx1⟩ := hx1
      rw [List.mem_map] at hx1
      obtain ⟨s, hs, he⟩ := hx1
      simp only [List.mem_cons, List.not_mem_nil, or_false] at hx2
      rcases hx2 with hx2 | hx2
      · exact layerPath_ne_global (by decide) (he.trans hx2)
      · exact layerPath_ne_global (by decide) (he.trans hx2)

/-! Encode-loop lemmas and the claim theorems. -/

lemma runEntries_cons_skip {params : List (String × Tensor)} {dc : Bool} {e : Entry}
    {rest : List Entry} (hmiss : params.lookup e.key = none) (hopt : e.optional = true) :
    runEntries params dc (e :: rest) = runEntries params dc rest := by
  simp [runEntries, hmiss, hopt]

lemma runEntries_cons_missing {params : List (String × Tensor)} {dc : Bool} {e : Entry}
    {rest : List Entry} (hmiss : params.lookup e.key = none) (hopt : e.optional = false) :
    runEntries params dc (e :: rest) =
      (some ("Parameters for " ++ e.key ++ " not found, bailing out"), []) := by
  simp [runEntries, hmiss, hopt]

lemma runEntries_cons_found {params : List (String × Tensor)} {dc : Bool} {e : Entry}
    {rest : List Entry} {t : Tensor} {px : String}
    (hfound : params.lookup e.key = some t)
    (hpx : pfxFor ((if dc && e.castable then t.to DType.float16 else t).dtype) = some px) :
    runEntries params dc (e :: rest) =
      ((runEntries params dc rest).1,
        (px ++ e.dest, if dc && e.castable then t.to DType.float16 else t) ::
          (runEntries params dc rest).2) := by
  simp only [runEntries, hfound]
  rw [hpx]

lemma runEntries_cons_badtype {params : List (String × Tensor)} {dc : Bool} {e : Entry}
    {rest : List Entry} {t : Tensor}
    (hfound : params.lookup e.key = some t)
    (hpx : pfxFor ((if dc && e.castable then t.to DType.float16 else t).dtype) = none) :
    runEntries params dc (e :: rest) = (some "Unknown data type", []) := by
  simp only [runEntries, hfound]
  rw [hpx]

lemma runEntries_append_of_ok (params : List (String × Tensor)) (dc : Bool) :
    ∀ (a l : List Entry), (∀ x ∈ a, entryOk params dc x = true) →
      runEntries params dc (a ++ l) =
        ((runEntries params dc l).1,
          (runEntries params dc a).2 ++ (runEntries params dc l).2) := by
  intro a
  induction a with
  | nil => intro l _; simp [runEntries]
  | cons x a' ih =>
    intro l hok
    have hx := hok x (List.mem_cons_self x a')
    unfold entryOk at hx
    cases hfind : params.lookup x.key with
    | none =>
      rw [hfind] at hx
      rw [List.cons_append, runEntries_cons_skip hfind hx,
        runEntries_cons_skip hfind hx,
        ih l (fun y hy => hok y (List.mem_cons_of_mem x hy))]
    | some t =>
      rw [hfind] at hx
      obtain ⟨px, hpx⟩ := Option.isSome_iff_exists.mp hx
      rw [List.cons_append, runEntries_cons_found hfind hpx,
        runEntries_cons_found hfind hpx,
        ih l (fun y hy => hok y (List.mem_cons_of_mem x hy))]
      simp

lemma mem_of_lookup :
    ∀ {l : List (String × Tensor)} {k : String} {t : Tensor},
      l.lookup k = some t → (k, t) ∈ l := by
  intro l
  induction l with
  | nil => intro k t h; simp [List.lookup] at h
  | cons p l' ih =>
    intro k t h
    obtain ⟨pk, pt⟩ := p
    rw [List.lookup] at h
    cases hbeq : (k == pk) with
    | true =>
      rw [hbeq] at h
      simp only [Option.some.injEq] at h
      have : k = pk := eq_of_beq hbeq
      subst this
      subst h
      exact List.mem_cons_self _ _
    | false =>
      rw [hbeq] at h
      exact List.mem_cons_of_mem _ (ih h)

lemma pfxFor_mem {d : DType} {px : String} (h : pfxFor d = some px) :
    px = "float32/" ∨ px = "float16/" ∨ px = "int32/" := by
  cases d <;> simp only [pfxFor, Option.some.injEq, reduceCtorEq] at h <;> simp [← h]

lemma mem_written_origin (params : List (String × Tensor)) (dc : Bool) :
    ∀ (l : List Entry) (p : String) (t : Tensor),
      (p, t) ∈ (runEntries params dc l).2 →
      ∃ x ∈ l, ∃ px, (px = "float32/" ∨ px = "float16/" ∨ px = "int32/") ∧
        p = px ++ x.dest := by
  intro l
  induction l with
  | nil => intro p t h; simp [runEntries] at h
  | cons e l' ih =>
    intro p t h
    cases hfind : params.lookup e.key with
    | none =>
      cases hopt : e.optional with
      | true =>
        rw [runEntries_cons_skip hfind hopt] at h
        obtain ⟨x, hx, hrest⟩ := ih p t h
        exact ⟨x, List.mem_cons_of_mem e hx, hrest⟩
      | false =>
        rw [runEntries_cons_missing hfind hopt] at h
        simp at h
    | some t0 =>
      cases hpx : pfxFor ((if dc && e.castable then t0.to DType.float16 else t0).dtype) with
      | none =>
        rw [runEntries_cons_badtype hfind hpx] at h
        simp at h
      | some px =>
        rw [runEntries_cons_found hfind hpx] at h
        rcases List.mem_cons.mp h with h | h
        · rw [Prod.mk.injEq] at h
          exact ⟨e, List.mem_cons_self e l', px, pfxFor_mem hpx, h.1⟩
        · obtain ⟨x, hx, hrest⟩ := ih p t h
          exact ⟨x, List.mem_cons_of_mem e hx, hrest⟩

lemma runEntries_middle_skip (params : List (String × Tensor)) (dc : Bool) {e : Entry}
    (hopt : e.optional = true) (hmiss : params.lookup e.key = none) :
    ∀ (a b : List Entry),
      runEntries params dc (a ++ e :: b) = runEntries params dc (a ++ b) := by
  intro a
  induction a with
  | nil => intro b; simpa using runEntries_cons_skip hmiss hopt
  | cons x a' ih =>
    intro b
    rw [List.cons_append, List.cons_append]
    cases hfind : params.lookup x.key with
    | none =>
      cases hox : x.optional with
      | true => rw [runEntries_cons_skip hfind hox, runEntries_cons_skip hfind hox, ih]
      | false => rw [runEntries_cons_missing hfind hox, runEntries_cons_missing hfind hox]
    | some t =>
      cases hpx : pfxFor ((if dc && x.castable then t.to DType.float16 else t).dtype) with
      | none => rw [runEntries_cons_badtype hfind hpx, runEntries_cons_badtype hfind hpx]
      | some px => rw [runEntries_cons_found hfind hpx, runEntries_cons_found hfind hpx, ih]

lemma dest_ne_of_split {n : Nat} {a b : List Entry} {e : Entry}
    (h : generate n = a ++ e :: b) :
    ∀ x ∈ a ++ b, x.dest ≠ e.dest := by
  have hn := generate_dest_nodup n
  rw [h, List.map_append, List.map_cons, List.nodup_append] at hn
  obtain ⟨_, hcons, hdisj⟩ := hn
  rw [List.nodup_cons] at hcons
  intro x hx hdest
  rcases List.mem_append.mp hx with hx | hx
  · apply hdisj (List.mem_map_of_mem Entry.dest hx)
    rw [hdest]
    exact List.mem_cons_self _ _
  · exact hcons.1 (hdest ▸ List.mem_map_of_mem Entry.dest hx)

lemma pfx_append_ne {px py s1 s2 : String}
    (hx : px = "float32/" ∨ px = "float16/" ∨ px = "int32/")
    (hy : py = "float32/" ∨ py = "float16/" ∨ py = "int32/")
    (hne : px ≠ py) : px ++ s1 ≠ py ++ s2 := by
  have d1 : ("float32/" : String).data = ['f', 'l', 'o', 'a', 't', '3', '2', '/'] := rfl
  have d2 : ("float16/" : String).data = ['f', 'l', 'o', 'a', 't', '1', '6', '/'] := rfl
  have d3 : ("int32/" : String).data = ['i', 'n', 't', '3', '2', '/'] := rfl
  intro h
  have hd := congrArg String.data h
  rw [String.data_append, String.data_append] at hd
  rcases hx with rfl | rfl | rfl <;> rcases hy with rfl | rfl | rfl <;>
    first
      | exact hne rfl
      | simp_all [d1, d2, d3]

lemma runEntries_error_none_of_ok (params : List (String × Tensor)) (dc : Bool) :
    ∀ (l : List Entry), (∀ x ∈ l, entryOk params dc x = true) →
      (runEntries params dc l).1 = none := by
  intro l
  induction l with
  | nil => intro _; rfl
  | cons x l' ih =>
    intro hok
    have hx := hok x (List.mem_cons_self x l')
    unfold entryOk at hx
    cases hfind : params.lookup x.key with
    | none =>
      rw [hfind] at hx
      rw [runEntries_cons_skip hfind hx]
      exact ih (fun y hy => hok y (List.mem_cons_of_mem x hy))
    | some t =>
      rw [hfind] at hx
      obtain ⟨px, hpx⟩ := Option.isSome_iff_exists.mp hx
      rw [runEntries_cons_found hfind hpx]
      exact ih (fun y hy => hok y (List.mem_cons_of_mem x hy))

lemma mem_runEntries_of_ok (params : List (String × Tensor)) (dc : Bool) :
    ∀ (l : List Entry), (∀ x ∈ l, entryOk params dc x = true) →
      ∀ e ∈ l, ∀ t, params.lookup e.key = some t →
        ∀ px, pfxFor ((if dc && e.castable then t.to DType.float16 else t).dtype) = some px →
          (px ++ e.dest, if dc && e.castable then t.to DType.float16 else t) ∈
            (runEntries params dc l).2 := by
  intro l
  induction l with
  | nil => intro _ e he; simp at he
  | cons x l' ih =>
    intro hok e he t ht px hpx
    have hx := hok x (List.mem_cons_self x l')
    unfold entryOk at hx
    rcases List.mem_cons.mp he with rfl | he'
    · rw [runEntries_cons_found ht hpx]
      exact List.mem_cons_self _ _
    · have hrec := ih (fun y hy => hok y (List.mem_cons_of_mem x hy)) e he' t ht px hpx
      cases hfind : params.lookup x.key with
      | none =>
        rw [hfind] at hx
        rw [runEntries_cons_skip hfind hx]
        exact hrec
      | some u =>
        rw [hfind] at hx
        obtain ⟨qx, hqx⟩ := Option.isSome_iff_exists.mp hx
        rw [runEntries_cons_found hfind hqx]
        exact List.mem_cons_of_mem _ hrec

/-- C1 (amended): if the first failing entry of the name map is a
mandatory entry whose source key is absent, the run aborts printing
exactly which key was missing, no further entries are written, and the
with-block still closes (finalizes) the zip archive. -/
theorem c1_missing_mandatory_aborts_amended
    (params : List (String × Tensor)) (n : Nat) (dc : Bool)
    (a b : List Entry) (e : Entry)
    (hsplit : generate n = a ++ e :: b)
    (hok : ∀ x ∈ a, entryOk params dc x = true)
    (hmand : e.optional = false)
    (hmiss : params.lookup e.key = none) :
    (reformat_quantized params n dc).error =
        some ("Parameters for " ++ e.key ++ " not found, bailing out") ∧
      (reformat_quantized params n dc).written = (runEntries params dc a).2 ∧
      (reformat_quantized params n dc).finalized = true := by
  simp only [reformat_quantized]
  rw [hsplit, runEntries_append_of_ok params dc a (e :: b) hok,
    runEntries_cons_missing hmiss hmand]
  simp

theorem c1_missing_mandatory_witness :
    (reformat_quantized [] 0 false).error =
        some ("Parameters for " ++ "model.embed_tokens.weight" ++ " not found, bailing out") ∧
      (reformat_quantized [] 0 false).written = (runEntries [] false []).2 ∧
      (reformat_quantized [] 0 false).finalized = true :=
  c1_missing_mandatory_aborts_amended [] 0 false []
    [⟨"model.norm.weight", "modelnorm.weights", true, false⟩,
     ⟨"lm_head.weight", "tokenscoring.embed", true, false⟩]
    ⟨"model.embed_tokens.weight", "embedding.embed", true, false⟩
    rfl (by simp) rfl rfl

theorem c1_finalize_counterexample :
    (∃ e ∈ generate 0, e.optional = false ∧
        List.lookup e.key ([] : List (String × Tensor)) = none) ∧
      (reformat_quantized [] 0 false).error.isSome = true ∧
      (reformat_quantized [] 0 false).finalized = true := by
  decide

/-- C2 (amended): the generated name map has 3 + 26 * layer_count
entries and pairwise-distinct destination paths. -/
theorem c2_generate_length_nodup_amended (n : Nat) :
    (generate n).length = 3 + 26 * n ∧ ((generate n).map Entry.dest).Nodup := by
  refine ⟨?_, generate_dest_nodup n⟩
  simp only [generate, List.length_cons, List.length_append, List.length_flatMap]
  rw [show List.length ∘ layerEntries = fun _ => (26 : Nat) from funext fun i => rfl]
  simp [List.map_const', List.sum_replicate, smul_eq_mul]
  omega

theorem c2_length_counterexample :
    (generate 0).length = 3 ∧ (generate 0).length ≠ 2 + 26 * 0 := by decide

/-- C3: the generated entry for the layer-0 down-projection weight
(`model.layers.0.mlp.down_proj.qweight`) carries `optional = true` in
the source table, although every other projection weight, scale and
zero-point entry is mandatory. -/
theorem c3_down_proj_weight_optional_eval :
    ((generate 1).filter
        (fun e => e.key == "model.layers.0.mlp.down_proj.qweight")).map Entry.optional
      = [true] ∧
    ((generate 1).filter
        (fun e => e.key == "model.layers.0.mlp.gate_proj.qweight")).map Entry.optional
      = [false] := by
  decide

/-- C4 (amended): when the first failing entry resolves to a tensor
whose (possibly downcast) element type is not float32/float16/int32,
the run aborts with the fixed diagnostic "Unknown data type" (naming
neither the type nor the destination path), no later entries are
written, and the archive is still closed with the earlier entries. -/
theorem c4_unknown_dtype_aborts_amended
    (params : List (String × Tensor)) (n : Nat) (dc : Bool)
    (a b : List Entry) (e : Entry) (t : Tensor)
    (hsplit : generate n = a ++ e :: b)
    (hok : ∀ x ∈ a, entryOk params dc x = true)
    (hfound : params.lookup e.key = some t)
    (hbad : pfxFor ((if dc && e.castable then t.to DType.float16 else t).dtype) = none) :
    (reformat_quantized params n dc).error = some "Unknown data type" ∧
      (reformat_quantized params n dc).written = (runEntries params dc a).2 ∧
      (reformat_quantized params n dc).finalized = true := by
  simp only [reformat_quantized]
  rw [hsplit, runEntries_append_of_ok params dc a (e :: b) hok,
    runEntries_cons_badtype hfound hbad]
  simp

theorem c4_unknown_dtype_witness :
    (reformat_quantized [("model.embed_tokens.weight", ⟨DType.float64, [0]⟩)] 0 false).error
        = some "Unknown data type" ∧
      (reformat_quantized [("model.embed_tokens.weight", ⟨DType.float64, [0]⟩)] 0 false).written
        = (runEntries [("model.embed_tokens.weight", ⟨DType.float64, [0]⟩)] false []).2 ∧
      (reformat_quantized [("model.embed_tokens.weight", ⟨DType.float64, [0]⟩)] 0 false).finalized
        = true :=
  c4_unknown_dtype_aborts_amended
    [("model.embed_tokens.weight", ⟨DType.float64, [0]⟩)] 0 false []
    [⟨"model.norm.weight", "modelnorm.weights", true, false⟩,
     ⟨"lm_head.weight", "tokenscoring.embed", true, false⟩]
    ⟨"model.embed_tokens.weight", "embedding.embed", true, false⟩
    ⟨DType.float64, [0]⟩
    rfl (by simp) (by decide) rfl

theorem c4_generic_message_counterexample :
    reformat_quantized
        [("model.embed_tokens.weight", ⟨DType.float32, [0]⟩),
         ("model.norm.weight", ⟨DType.float64, [0]⟩),
         ("lm_head.weight", ⟨DType.float32, [0]⟩)] 0 false
      = ⟨some "Unknown data type",
          [("float32/embedding.embed", ⟨DType.float32, [0]⟩)], true⟩ ∧
      segOccurs "modelnorm.weights".data "Unknown data type".data = false ∧
      segOccurs "float64".data "Unknown data type".data = false := by
  decide

/-- C5 (amended): the attention portion of each layer contributes
exactly twelve entries, all mandatory and none downcast-eligible. -/
theorem c5_attention_entries_amended (i : Nat) :
    (layerAttn i).length = 12 ∧
      ((layerAttn i).all fun e => !e.optional && !e.castable) = true :=
  ⟨rfl, rfl⟩

theorem c5_attention_count_counterexample :
    (layerAttn 0).length = 12 ∧ (layerAttn 0).length ≠ 9 := by decide

/-- C6: with a store of float32 tensors covering every key and
downcast on, every downcast-eligible entry is written under float16/
with half the original byte length, and every other entry is written
under float32/ with the tensor unchanged. -/
theorem c6_downcast_all_float32
    (params : List (String × Tensor)) (n : Nat)
    (hall : ∀ p ∈ params, (Prod.snd p).dtype = DType.float32)
    (hkeys : ∀ e ∈ generate n, (params.lookup e.key).isSome = true) :
    (reformat_quantized params n true).error = none ∧
      ∀ e ∈ generate n, ∀ t, params.lookup e.key = some t →
        (e.castable = true →
            ("float16/" ++ e.dest, t.to DType.float16) ∈
                (reformat_quantized params n true).written ∧
              (t.to DType.float16).byteLength * 2 = t.byteLength) ∧
          (e.castable = false →
            ("float32/" ++ e.dest, t) ∈ (reformat_quantized params n true).written) := by
  have hok : ∀ x ∈ generate n, entryOk params true x = true := by
    intro x hx
    obtain ⟨t, ht⟩ := Option.isSome_iff_exists.mp (hkeys x hx)
    have hdt : t.dtype = DType.float32 := hall (x.key, t) (mem_of_lookup ht)
    unfold entryOk
    rw [ht]
    cases hc : x.castable
    · simp [hc, hdt, pfxFor]
    · simp [hc, hdt, pfxFor, Tensor.to]
  refine ⟨?_, ?_⟩
  · simpa [reformat_quantized] using
      runEntries_error_none_of_ok params true (generate n) hok
  · intro e he t ht
    have hdt : t.dtype = DType.float32 := hall (e.key, t) (mem_of_lookup ht)
    constructor
    · intro hc
      refine ⟨?_, ?_⟩
      · have hpx : pfxFor ((if true && e.castable then t.to DType.float16 else t).dtype)
            = some "float16/" := by simp [hc, Tensor.to, pfxFor]
        have hmem := mem_runEntries_of_ok params true (generate n) hok e he t ht _ hpx
        simpa [reformat_quantized, hc] using hmem
      · simp [Tensor.byteLength, Tensor.to, hdt, DType.byteSize]
        omega
    · intro hc
      have hpx : pfxFor ((if true && e.castable then t.to DType.float16 else t).dtype)
          = some "float32/" := by simp [hc, hdt, pfxFor]
      have hmem := mem_runEntries_of_ok params true (generate n) hok e he t ht _ hpx
      simpa [reformat_quantized, hc] using hmem

theorem c6_downcast_witness :
    (∀ p ∈ [("model.embed_tokens.weight", (⟨DType.float32, [1, 2]⟩ : Tensor)),
            ("model.norm.weight", ⟨DType.float32, [3]⟩),
            ("lm_head.weight", ⟨DType.float32, [4, 5]⟩)],
        (Prod.snd p).dtype = DType.float32) ∧
      (∀ e ∈ generate 0,
        (List.lookup e.key
            [("model.embed_tokens.weight", (⟨DType.float32, [1, 2]⟩ : Tensor)),
             ("model.norm.weight", ⟨DType.float32, [3]⟩),
             ("lm_head.weight", ⟨DType.float32, [4, 5]⟩)]).isSome = true) ∧
      ((reformat_quantized
            [("model.embed_tokens.weight", ⟨DType.float32, [1, 2]⟩),
             ("model.norm.weight", ⟨DType.float32, [3]⟩),
             ("lm_head.weight", ⟨DType.float32, [4, 5]⟩)] 0 true).error = none ∧
        ∀ e ∈ generate 0, ∀ t,
          (List.lookup e.key
              [("model.embed_tokens.weight", (⟨DType.float32, [1, 2]⟩ : Tensor)),
               ("model.norm.weight", ⟨DType.float32, [3]⟩),
               ("lm_head.weight", ⟨DType.float32, [4, 5]⟩)]) = some t →
            (e.castable = true →
                ("float16/" ++ e.dest, t.to DType.float16) ∈
                    (reformat_quantized
                        [("model.embed_tokens.weight", ⟨DType.float32, [1, 2]⟩),
                         ("model.norm.weight", ⟨DType.float32, [3]⟩),
                         ("lm_head.weight", ⟨DType.float32, [4, 5]⟩)] 0 true).written ∧
                  (t.to DType.float16).byteLength * 2 = t.byteLength) ∧
              (e.castable = false →
                ("float32/" ++ e.dest, t) ∈
                    (reformat_quantized
                        [("model.embed_tokens.weight", ⟨DType.float32, [1, 2]⟩),
                         ("model.norm.weight", ⟨DType.float32, [3]⟩),
                         ("lm_head.weight", ⟨DType.float32, [4, 5]⟩)] 0 true).written)) :=
  ⟨by decide, by decide,
    c6_downcast_all_float32
      [("model.embed_tokens.weight", ⟨DType.float32, [1, 2]⟩),
       ("model.norm.weight", ⟨DType.float32, [3]⟩),
       ("lm_head.weight", ⟨DType.float32, [4, 5]⟩)] 0 (by decide) (by decide)⟩

/-- C7: an optional entry whose key is absent is skipped silently (the
run equals the run without that entry), and no archive entry is written
under that entry's destination path. -/
theorem c7_optional_missing_skipped
    (params : List (String × Tensor)) (n : Nat) (dc : Bool)
    (a b : List Entry) (e : Entry)
    (hsplit : generate n = a ++ e :: b)
    (hopt : e.optional = true)
    (hmiss : params.lookup e.key = none) :
    runEntries params dc (generate n) = runEntries params dc (a ++ b) ∧
      ∀ p t, (p, t) ∈ (reformat_quantized params n dc).written →
        p ≠ "float32/" ++ e.dest ∧ p ≠ "float16/" ++ e.dest ∧ p ≠ "int32/" ++ e.dest := by
  have hskip : runEntries params dc (generate n) = runEntries params dc (a ++ b) := by
    rw [hsplit]
    exact runEntries_middle_skip params dc hopt hmiss a b
  refine ⟨hskip, ?_⟩
  intro p t hmem
  have hmem' : (p, t) ∈ (runEntries params dc (a ++ b)).2 := by
    simpa [reformat_quantized, hskip] using hmem
  obtain ⟨x, hx, px, hpxmem, rfl⟩ := mem_written_origin params dc (a ++ b) p t hmem'
  have hxd : x.dest ≠ e.dest := dest_ne_of_split hsplit x hx
  have hgen : ∀ py : String, py = "float32/" ∨ py = "float16/" ∨ py = "int32/" →
      px ++ x.dest ≠ py ++ e.dest := by
    intro py hpy h
    by_cases hpp : px = py
    · subst hpp
      have hd := congrArg String.data h
      rw [String.data_append, String.data_append] at hd
      exact hxd (String.ext (List.append_cancel_left hd))
    · exact pfx_append_ne hpxmem hpy hpp h
  exact ⟨hgen _ (Or.inl rfl), hgen _ (Or.inr (Or.inl rfl)), hgen _ (Or.inr (Or.inr rfl))⟩

theorem c7_optional_missing_witness :
    runEntries [] false (generate 1) =
        runEntries [] false ((generate 1).take 14 ++ (generate 1).drop 15) ∧
      ∀ p t, (p, t) ∈ (reformat_quantized [] 1 false).written →
        p ≠ "float32/" ++ "dec0gate.bias" ∧ p ≠ "float16/" ++ "dec0gate.bias" ∧
          p ≠ "int32/" ++ "dec0gate.bias" :=
  c7_optional_missing_skipped [] 1 false ((generate 1).take 14) ((generate 1).drop 15)
    ⟨"model.layers.0.mlp.gate_proj.bias", "dec0gate.bias", false, true⟩
    (by decide) rfl rfl

/-- C8: the three-tensor float32 store with layer count 0 and downcast
off yields exactly the three expected float32-prefixed entries, each
with byte length four times its element count. -/
theorem c8_end_to_end_three_entries (d1 d2 d3 : List Int) :
    reformat_quantized
        [("model.embed_tokens.weight", ⟨DType.float32, d1⟩),
         ("model.norm.weight", ⟨DType.float32, d2⟩),
         ("lm_head.weight", ⟨DType.float32, d3⟩)] 0 false =
      ⟨none,
        [("float32/embedding.embed", ⟨DType.float32, d1⟩),
         ("float32/modelnorm.weights", ⟨DType.float32, d2⟩),
         ("float32/tokenscoring.embed", ⟨DType.float32, d3⟩)], true⟩ ∧
      Tensor.byteLength ⟨DType.float32, d1⟩ = 4 * d1.length ∧
      Tensor.byteLength ⟨DType.float32, d2⟩ = 4 * d2.length ∧
      Tensor.byteLength ⟨DType.float32, d3⟩ = 4 * d3.length := by
  refine ⟨rfl, ?_, ?_, ?_⟩ <;> simp [Tensor.byteLength, DType.byteSize, Nat.mul_comm]

/-- C9: the name-map generator is deterministic — equal layer counts
produce identical lists. -/
theorem c9_generate_deterministic (n m : Nat) (h : n = m) : generate n = generate m :=
  congrArg generate h

theorem c9_generate_deterministic_witness : generate 2 = generate 2 :=
  c9_generate_deterministic 2 2 rfl

/-- C10: with downcast on, a downcast-eligible entry whose stored
tensor is int32 is converted to float16 and written under float16/,
not under int32/ and not rejected; processing continues with the
remaining entries. -/
theorem c10_downcast_int32_entry
    (params : List (String × Tensor)) (e : Entry) (rest : List Entry) (t : Tensor)
    (hcast : e.castable = true)
    (hfound : params.lookup e.key = some t)
    (hdtype : t.dtype = DType.int32) :
    runEntries params true (e :: rest) =
      ((runEntries params true rest).1,
        ("float16/" ++ e.dest, t.to DType.float16) :: (runEntries params true rest).2) := by
  have hpx : pfxFor ((if true && e.castable then t.to DType.float16 else t).dtype)
      = some "float16/" := by simp [hcast, Tensor.to, pfxFor]
  have hstep := @runEntries_cons_found params true e rest t "float16/" hfound hpx
  simpa [hcast] using hstep

theorem c10_downcast_int32_witness :
    runEntries [("k", ⟨DType.int32, [7]⟩)] true [⟨"k", "d", true, false⟩] =
      ((runEntries [("k", (⟨DType.int32, [7]⟩ : Tensor))] true []).1,
        ("float16/" ++ "d", Tensor.to ⟨DType.int32, [7]⟩ DType.float16) ::
          (runEntries [("k", (⟨DType.int32, [7]⟩ : Tensor))] true []).2) :=
  c10_downcast_int32_entry [("k", ⟨DType.int32, [7]⟩)] ⟨"k", "d", true, false⟩ []
    ⟨DType.int32, [7]⟩ rfl (by decide) rfl
